import Mathlib

/-!
Shallow embedding of webWatcher.py, a web-page change monitor.

Pure, state-passing model of the fingerprint engine (get_page_hash),
the notifier (send_email), the per-target monitor loop (monitor_website)
and the reconciler (monitor_websites), with theorems settling the
specified behaviour of each part.
-/

/-- A monitored target: a URL plus an optional XPath selector
(one entry of the JSON target file). -/
structure Target where
  url : String
  xpath : Option String
deriving Repr, DecidableEq

/-- Abstract view of a fetched, parsed HTML document: the full visible
text (soup.get_text()) and, for each XPath expression, the list of
matched elements and their optional text contents (elem.text, none when
the element has no text node). -/
structure Doc where
  getText : String
  xpathElems : String → List (Option String)

/-- UTF-8 encoding of a string as a byte list (content_text.encode). -/
def utf8Encode (s : String) : List Nat :=
  s.toUTF8.toList.map (fun b => b.toNat)

/-- The extracted text computed by get_page_hash: with an XPath, the
texts of the matched elements that are truthy (neither none nor empty),
joined by single spaces; without one, the document's full visible text. -/
def content_text (doc : Doc) (xpath : Option String) : String :=
  match xpath with
  | some sel =>
      String.intercalate " "
        ((doc.xpathElems sel).filterMap
          (fun ot => ot.bind (fun s => if s == "" then none else some s)))
  | none => doc.getText

/-- Extraction as worded by the spec: with a selector, the text content
of the matching elements joined by single spaces with textless elements
skipped (empty when no element matches); without one, all visible text
of the document. -/
def extracted_text_spec (doc : Doc) (xpath : Option String) : String :=
  match xpath with
  | some sel =>
      String.intercalate " "
        (((doc.xpathElems sel).filterMap id).filter (fun t => t != ""))
  | none => doc.getText

/-- get_page_hash on a successfully fetched document: the hex digest of
the UTF-8 encoded extracted text. The SHA-256 hex renderer is passed in
as a parameter, hashlib being external to the script. -/
def get_page_hash (sha256hex : List Nat → String) (doc : Doc)
    (xpath : Option String) : String :=
  sha256hex (utf8Encode (content_text doc xpath))

/-- The fingerprint as worded by the spec: hex-rendered digest of the
UTF-8 encoding of the spec's extracted text. -/
def fingerprint_spec (sha256hex : List Nat → String) (doc : Doc)
    (xpath : Option String) : String :=
  sha256hex (utf8Encode (extracted_text_spec doc xpath))

/-- One notification request handed to the notifier. -/
structure Email where
  subject : String
  body : String
deriving Repr, DecidableEq

/-- The shared last_hashes dict: URL keys with optional stored hash. -/
abbrev LastHashes := List (String × Option String)

/-- last_hashes.get(url): none for a missing key and for a stored None. -/
def lhGet (lh : LastHashes) (url : String) : Option String :=
  match lh.lookup url with
  | some v => v
  | none => none

/-- Dict assignment last_hashes[url] = v: replace at the key or append. -/
def lhSet (lh : LastHashes) (url : String) (v : Option String) : LastHashes :=
  match lh with
  | [] => [(url, v)]
  | p :: rest => if p.1 == url then (url, v) :: rest else p :: lhSet rest url v

/-- send_email: the try block sends and logs success; any exception is
caught and logged as failure. The transport outcome is the smtpOk
input; the call always returns normally, never raising to the caller. -/
def send_email (subject body : String) (smtpOk : Bool) : List String :=
  if smtpOk then
    ["[邮件通知] 邮件发送成功"]
  else
    ["[邮件通知] 邮件发送失败"]

/-- Observable result of monitor cycles: the updated last_hashes dict,
the notification requests handed to send_email, and the log lines. -/
structure CycleOut where
  last_hashes : LastHashes
  emails : List Email
  logs : List String
deriving Repr, DecidableEq

/-- One iteration of monitor_website's while-True body for one target:
current_hash is get_page_hash's result (none on fetch failure), smtpOk
the mail transport outcome for any notification attempted this cycle. -/
def monitor_cycle (url : String) (current_hash : Option String)
    (smtpOk : Bool) (lh : LastHashes) : CycleOut :=
  match current_hash with
  | none =>
      ⟨lh, [], ["[监控] 无法获取 " ++ url ++ " 的网页内容，跳过本次检测"]⟩
  | some h =>
      match lhGet lh url with
      | none =>
          ⟨lhSet lh url (some h), [],
            ["[监控] 初次记录 " ++ url ++ " 网站内容哈希值"]⟩
      | some prev =>
          if h != prev then
            ⟨lhSet lh url (some h),
              [⟨url ++ " 网站变动通知",
                "网站 " ++ url ++ " 的内容发生了变动！请检查更新。"⟩],
              ["[警告] " ++ url ++ " 网站内容发生变动！"] ++
                send_email (url ++ " 网站变动通知")
                  ("网站 " ++ url ++ " 的内容发生了变动！请检查更新。") smtpOk⟩
          else
            ⟨lh, [], ["[监控] " ++ url ++ " 网站内容没有变动"]⟩

/-- monitor_website's loop unrolled over a finite prefix of cycle
inputs: a (fetch result, transport outcome) pair per cycle. -/
def monitor_run (url : String) (inputs : List (Option String × Bool))
    (lh : LastHashes) : CycleOut :=
  match inputs with
  | [] => ⟨lh, [], []⟩
  | (ch, b) :: rest =>
      let c := monitor_cycle url ch b lh
      let r := monitor_run url rest c.last_hashes
      ⟨r.last_hashes, c.emails ++ r.emails, c.logs ++ r.logs⟩

/-- System state of monitor_websites: the tasks dict (URL to task id),
the shared last_hashes dict, the multiset of live (created and not yet
cancelled) monitor tasks, and the next fresh task id. -/
structure SysState where
  tasks : List (String × Nat)
  last_hashes : LastHashes
  live : List (String × Nat)
  nextId : Nat
deriving Repr, DecidableEq

/-- Decidable equality of run results (used to evaluate the model at
concrete inputs). -/
instance {α β : Type} [DecidableEq α] [DecidableEq β] :
    DecidableEq (Except α β) := fun a b =>
  match a, b with
  | Except.error e1, Except.error e2 =>
      if h : e1 = e2 then isTrue (by rw [h])
      else isFalse (by intro he; cases he; exact h rfl)
  | Except.error _, Except.ok _ => isFalse (by intro he; cases he)
  | Except.ok _, Except.error _ => isFalse (by intro he; cases he)
  | Except.ok x, Except.ok y =>
      if h : x = y then isTrue (by rw [h])
      else isFalse (by intro he; cases he; exact h rfl)

/-- load_target_urls: a successful read and parse yields the target
list; any exception is caught, logged, and an empty list returned. -/
def load_target_urls (r : Except String (List Target)) : List Target :=
  match r with
  | Except.ok ts => ts
  | Except.error _ => []

/-- Dict assignment tasks[url] = tid: replace at the key or append. -/
def insertTask (tasks : List (String × Nat)) (url : String) (tid : Nat) :
    List (String × Nat) :=
  match tasks with
  | [] => [(url, tid)]
  | p :: rest =>
      if p.1 == url then (url, tid) :: rest else p :: insertTask rest url tid

/-- The dict comprehension initialising last_hashes to None per URL. -/
def initHashes (targets : List Target) : LastHashes :=
  targets.foldl (fun lh t => lhSet lh t.url none) []

/-- The startup loop: create one monitor task per listed target,
recording its handle in tasks (and in the live multiset). -/
def startupLoop (targets : List Target) (s : SysState) : SysState :=
  match targets with
  | [] => s
  | t :: rest =>
      startupLoop rest
        { s with
          tasks := insertTask s.tasks t.url s.nextId,
          live := s.live ++ [(t.url, s.nextId)],
          nextId := s.nextId + 1 }

/-- State after monitor_websites' startup phase on a target list. -/
def initState (targets : List Target) : SysState :=
  startupLoop targets
    { tasks := [], last_hashes := initHashes targets, live := [], nextId := 0 }

/-- monitor_websites' startup: an empty (or unreadable, hence empty)
target list makes the function return at once (none); otherwise it
enters the perpetual loop with the startup state (some). -/
def monitor_websites_start (r : Except String (List Target)) :
    Option SysState :=
  let targets := load_target_urls r
  if targets.isEmpty then none else some (initState targets)

/-- The removal loop over a snapshot of the tasks dict's keys: a key
absent from the new URL list has its task cancelled and its dict
entries deleted; a del on a missing key raises KeyError, modelled as
Except.error, which aborts the whole program. -/
def removalLoop (keys : List String) (newUrls : List String)
    (s : SysState) : Except String SysState :=
  match keys with
  | [] => Except.ok s
  | k :: rest =>
      if newUrls.contains k then
        removalLoop rest newUrls s
      else
        match s.tasks.lookup k with
        | none => Except.error ("KeyError: tasks " ++ k)
        | some tid =>
            match s.last_hashes.lookup k with
            | none => Except.error ("KeyError: last_hashes " ++ k)
            | some _ =>
                removalLoop rest newUrls
                  { s with
                    tasks := s.tasks.filter (fun p => p.1 != k),
                    last_hashes := s.last_hashes.filter (fun p => p.1 != k),
                    live := s.live.filter (fun p => p.2 != tid) }

/-- The addition loop: spawn a task for each new target whose URL has
no tasks entry yet; last_hashes is left untouched. -/
def addLoop (newTargets : List Target) (s : SysState) : SysState :=
  match newTargets with
  | [] => s
  | t :: rest =>
      if (s.tasks.lookup t.url).isSome then
        addLoop rest s
      else
        addLoop rest
          { s with
            tasks := s.tasks ++ [(t.url, s.nextId)],
            live := s.live ++ [(t.url, s.nextId)],
            nextId := s.nextId + 1 }

/-- One reconciliation pass on a freshly loaded target list. -/
def reconcile (s : SysState) (newTargets : List Target) :
    Except String SysState :=
  match removalLoop (s.tasks.map Prod.fst) (newTargets.map Target.url) s with
  | Except.error e => Except.error e
  | Except.ok s2 => Except.ok (addLoop newTargets s2)

/-- One reconciliation triggered by a detected file modification, fed
the raw read result; load_target_urls turns a failure into []. -/
def reconcile_cycle (s : SysState) (r : Except String (List Target)) :
    Except String SysState :=
  reconcile s (load_target_urls r)

/-- Well-formedness the code maintains from a duplicate-free startup
list: the live tasks are exactly the tasks dict's entries, URL keys and
task ids are duplicate-free, and every id is below the fresh counter. -/
def GoodState (s : SysState) : Prop :=
  s.live = s.tasks ∧ (s.tasks.map Prod.fst).Nodup ∧
    (s.tasks.map Prod.snd).Nodup ∧ ∀ p ∈ s.tasks, p.2 < s.nextId

/-- States reachable by the program: startup on a non-empty target list
with unique URLs (the spec's target-set identity requirement), then any
interleaving of successful reconciliations and monitor cycles. -/
inductive Reachable : SysState → Prop where
  | init (ts : List Target) (hu : (ts.map Target.url).Nodup)
      (hne : ts ≠ []) : Reachable (initState ts)
  | reconcileStep {s s2 : SysState} (r : Except String (List Target))
      (hs : Reachable s) (hr : reconcile_cycle s r = Except.ok s2) :
      Reachable s2
  | monitorStep {s : SysState} (url : String) (ch : Option String)
      (b : Bool) (hs : Reachable s) :
      Reachable { s with
        last_hashes := (monitor_cycle url ch b s.last_hashes).last_hashes }
section AssocLemmas

variable {β : Type}

theorem lookup_cons_eq (k a : String) (v : β) (l : List (String × β)) :
    List.lookup k ((a, v) :: l) = if k = a then some v else List.lookup k l := by
  simp only [List.lookup]
  cases h : (k == a)
  · rw [if_neg (by simpa using h)]
  · rw [if_pos (by simpa using h)]

theorem mem_keys_of_lookup {k : String} {v : β} {l : List (String × β)}
    (h : l.lookup k = some v) : k ∈ l.map Prod.fst := by
  induction l with
  | nil => simp [List.lookup] at h
  | cons p rest ih =>
    rw [show p = (p.1, p.2) from rfl, lookup_cons_eq] at h
    by_cases hk : k = p.1
    · simp [hk]
    · rw [if_neg hk] at h
      simp [ih h]

theorem lookup_isSome_of_mem_keys {k : String} {l : List (String × β)}
    (h : k ∈ l.map Prod.fst) : (l.lookup k).isSome := by
  induction l with
  | nil => simp at h
  | cons p rest ih =>
    rw [show p = (p.1, p.2) from rfl, lookup_cons_eq]
    by_cases hk : k = p.1
    · rw [if_pos hk]
      rfl
    · rw [List.map_cons, List.mem_cons] at h
      rcases h with h | h
      · exact absurd h hk
      · rw [if_neg hk]
        exact ih h

theorem lookup_mem {k : String} {v : β} {l : List (String × β)}
    (h : l.lookup k = some v) : (k, v) ∈ l := by
  induction l with
  | nil => simp [List.lookup] at h
  | cons p rest ih =>
    rw [show p = (p.1, p.2) from rfl, lookup_cons_eq] at h
    by_cases hk : k = p.1
    · rw [if_pos hk] at h
      injection h with h
      simp [hk, ← h]
    · rw [if_neg hk] at h
      exact List.mem_cons_of_mem _ (ih h)

theorem lookup_filter_keyne_self (k : String) (l : List (String × β)) :
    (l.filter (fun p => p.1 != k)).lookup k = none := by
  induction l with
  | nil => simp [List.lookup]
  | cons p rest ih =>
    rw [List.filter_cons]
    by_cases hk : p.1 = k
    · rw [if_neg (by simpa using hk)]
      exact ih
    · rw [if_pos (by simpa using hk)]
      rw [show p = (p.1, p.2) from rfl, lookup_cons_eq, if_neg (Ne.symm hk)]
      exact ih

theorem lookup_filter_keyne {k k0 : String} (hne : k ≠ k0)
    (l : List (String × β)) :
    (l.filter (fun p => p.1 != k0)).lookup k = l.lookup k := by
  induction l with
  | nil => simp
  | cons p rest ih =>
    rw [List.filter_cons]
    by_cases hk : p.1 = k0
    · rw [if_neg (by simpa using hk)]
      rw [ih, show p = (p.1, p.2) from rfl, lookup_cons_eq,
        if_neg (by rw [hk]; exact hne)]
    · rw [if_pos (by simpa using hk)]
      rw [show p = (p.1, p.2) from rfl, lookup_cons_eq, lookup_cons_eq, ih]

theorem map_fst_filter_keyne (k : String) (l : List (String × β)) :
    (l.filter (fun p => p.1 != k)).map Prod.fst =
      (l.map Prod.fst).filter (fun x => x != k) := by
  induction l with
  | nil => simp
  | cons p rest ih =>
    rw [List.filter_cons, List.map_cons, List.filter_cons]
    by_cases hk : p.1 = k
    · rw [if_neg (by simpa using hk), if_neg (by simpa using hk)]
      exact ih
    · rw [if_pos (by simpa using hk), if_pos (by simpa using hk)]
      rw [List.map_cons, ih]

theorem lookup_append_some {k : String} {v : β} {l l2 : List (String × β)}
    (h : l.lookup k = some v) : (l ++ l2).lookup k = some v := by
  induction l with
  | nil => simp [List.lookup] at h
  | cons p rest ih =>
    rw [show p = (p.1, p.2) from rfl, lookup_cons_eq] at h
    rw [List.cons_append, show p = (p.1, p.2) from rfl, lookup_cons_eq]
    by_cases hk : k = p.1
    · rw [if_pos hk] at h ⊢
      exact h
    · rw [if_neg hk] at h ⊢
      exact ih h

theorem lookup_append_none {k : String} {l l2 : List (String × β)}
    (h : l.lookup k = none) : (l ++ l2).lookup k = l2.lookup k := by
  induction l with
  | nil => simp
  | cons p rest ih =>
    rw [show p = (p.1, p.2) from rfl, lookup_cons_eq] at h
    rw [List.cons_append, show p = (p.1, p.2) from rfl, lookup_cons_eq]
    by_cases hk : k = p.1
    · rw [if_pos hk] at h
      exact absurd h (by simp)
    · rw [if_neg hk] at h ⊢
      exact ih h

theorem lookup_eq_none_of_not_mem_keys {k : String} {l : List (String × β)}
    (h : k ∉ l.map Prod.fst) : l.lookup k = none := by
  cases hl : l.lookup k with
  | none => rfl
  | some v => exact absurd (mem_keys_of_lookup hl) h

end AssocLemmas

theorem lhGet_lhSet_self (lh : LastHashes) (url : String) (v : Option String) :
    lhGet (lhSet lh url v) url = v := by
  induction lh with
  | nil => simp [lhSet, lhGet, List.lookup]
  | cons p rest ih =>
    rw [lhSet]
    by_cases hk : p.1 = url
    · rw [if_pos (by simpa using hk)]
      simp [lhGet, List.lookup]
    · rw [if_neg (by simpa using hk)]
      rw [lhGet, show p = (p.1, p.2) from rfl, lookup_cons_eq,
        if_neg (Ne.symm hk)]
      exact ih

theorem lhGet_lhSet_ne (lh : LastHashes) {url u2 : String}
    (hne : url ≠ u2) (v : Option String) :
    lhGet (lhSet lh u2 v) url = lhGet lh url := by
  induction lh with
  | nil =>
    simp [lhSet, lhGet, List.lookup]
    cases h : (url == u2)
    · rfl
    · exact absurd (by simpa using h) hne
  | cons p rest ih =>
    rw [lhSet]
    by_cases hk : p.1 = u2
    · rw [if_pos (by simpa using hk)]
      rw [lhGet, lhGet, lookup_cons_eq, show p = (p.1, p.2) from rfl,
        lookup_cons_eq, if_neg hne, if_neg (by rw [hk]; exact hne)]
    · rw [if_neg (by simpa using hk)]
      rw [lhGet, lhGet, show p = (p.1, p.2) from rfl, lookup_cons_eq,
        lookup_cons_eq]
      by_cases hu : url = p.1
      · rw [if_pos hu, if_pos hu]
      · rw [if_neg hu, if_neg hu]
        exact ih

theorem monitor_cycle_change {url F : String} (G : String) (b : Bool)
    {lh : LastHashes} (hstored : lhGet lh url = some F) (hne : G ≠ F) :
    monitor_cycle url (some G) b lh =
      ⟨lhSet lh url (some G),
        [⟨url ++ " 网站变动通知",
          "网站 " ++ url ++ " 的内容发生了变动！请检查更新。"⟩],
        ["[警告] " ++ url ++ " 网站内容发生变动！"] ++
          send_email (url ++ " 网站变动通知")
            ("网站 " ++ url ++ " 的内容发生了变动！请检查更新。") b⟩ := by
  simp only [monitor_cycle, hstored]
  rw [if_pos (by simpa using hne)]

theorem monitor_cycle_baseline {url : String} (G : String) (b : Bool)
    {lh : LastHashes} (hunset : lhGet lh url = none) :
    monitor_cycle url (some G) b lh =
      ⟨lhSet lh url (some G), [],
        ["[监控] 初次记录 " ++ url ++ " 网站内容哈希值"]⟩ := by
  simp only [monitor_cycle, hunset]

theorem monitor_cycle_nochange {url F : String} (b : Bool)
    {lh : LastHashes} (hstored : lhGet lh url = some F) :
    monitor_cycle url (some F) b lh =
      ⟨lh, [], ["[监控] " ++ url ++ " 网站内容没有变动"]⟩ := by
  simp only [monitor_cycle, hstored]
  rw [if_neg (by simp)]

theorem filterMap_truthy (l : List (Option String)) :
    l.filterMap (fun ot => ot.bind (fun s => if s == "" then none else some s)) =
      (l.filterMap id).filter (fun t => t != "") := by
  induction l with
  | nil => rfl
  | cons ot rest ih =>
    cases ot with
    | none => simpa using ih
    | some s =>
      by_cases hs : s = ""
      · subst hs
        simpa using ih
      · rw [List.filterMap_cons, List.filterMap_cons]
        simp only [Option.some_bind, id_eq]
        rw [if_neg (show ¬((s == "") = true) from by simpa using hs)]
        rw [List.filter_cons, if_pos (by simpa using hs), ih]

/-- C1: for a target whose stored fingerprint is F, a cycle whose fetch
succeeds with computed fingerprint G different from F hands the
notifier exactly one message, whose subject and body name the target's
URL, and overwrites the stored fingerprint with G. -/
theorem claim_C1_change_notifies_once (url F G : String) (b : Bool)
    (lh : LastHashes) (hstored : lhGet lh url = some F) (hne : G ≠ F) :
    (monitor_cycle url (some G) b lh).emails =
        [⟨url ++ " 网站变动通知",
          "网站 " ++ url ++ " 的内容发生了变动！请检查更新。"⟩] ∧
      (monitor_cycle url (some G) b lh).last_hashes = lhSet lh url (some G) ∧
      lhGet (monitor_cycle url (some G) b lh).last_hashes url = some G := by
  rw [monitor_cycle_change G b hstored hne]
  exact ⟨rfl, rfl, lhGet_lhSet_self lh url (some G)⟩

/-- C1 witness: concrete stored fingerprint f0, new fingerprint g0. -/
theorem claim_C1_witness :
    (monitor_cycle "u" (some "g0") true [("u", some "f0")]).emails =
        [⟨"u" ++ " 网站变动通知",
          "网站 " ++ "u" ++ " 的内容发生了变动！请检查更新。"⟩] ∧
      (monitor_cycle "u" (some "g0") true [("u", some "f0")]).last_hashes =
        lhSet [("u", some "f0")] "u" (some "g0") ∧
      lhGet (monitor_cycle "u" (some "g0") true
        [("u", some "f0")]).last_hashes "u" = some "g0" :=
  claim_C1_change_notifies_once "u" "f0" "g0" true [("u", some "f0")]
    (by decide) (by decide)

/-- C3: a notifier failure is non-fatal to the target monitor: the
updated last_hashes dict is independent of the transport outcome, and
on a detected change the stored fingerprint advances to the new value
whether or not the notification succeeded. -/
theorem claim_C3_notifier_failure_nonfatal (url G : String) (b : Bool)
    (lh : LastHashes) :
    (monitor_cycle url (some G) b lh).last_hashes =
        (monitor_cycle url (some G) true lh).last_hashes ∧
      ∀ F, lhGet lh url = some F → G ≠ F →
        lhGet (monitor_cycle url (some G) b lh).last_hashes url = some G := by
  constructor
  · cases hstored : lhGet lh url with
    | none =>
      rw [monitor_cycle_baseline G b hstored,
        monitor_cycle_baseline G true hstored]
    | some F =>
      by_cases hne : G = F
      · subst hne
        rw [monitor_cycle_nochange b hstored,
          monitor_cycle_nochange true hstored]
      · rw [monitor_cycle_change G b hstored hne,
          monitor_cycle_change G true hstored hne]
  · intro F hstored hne
    rw [monitor_cycle_change G b hstored hne]
    exact lhGet_lhSet_self lh url (some G)

/-- C3 witness: with a failing transport the fingerprint still
advances on a change. -/
theorem claim_C3_witness :
    lhGet (monitor_cycle "u" (some "g0") false
      [("u", some "f0")]).last_hashes "u" = some "g0" :=
  (claim_C3_notifier_failure_nonfatal "u" "g0" false [("u", some "f0")]).2
    "f0" (by decide) (by decide)

/-- C4: with an unset stored fingerprint, the first successful fetch
records the computed fingerprint as baseline and sends no notification,
whatever the fetched content's fingerprint G is. -/
theorem claim_C4_first_observation_baseline (url G : String) (b : Bool)
    (lh : LastHashes) (hunset : lhGet lh url = none) :
    (monitor_cycle url (some G) b lh).emails = [] ∧
      (monitor_cycle url (some G) b lh).last_hashes = lhSet lh url (some G) ∧
      lhGet (monitor_cycle url (some G) b lh).last_hashes url = some G := by
  rw [monitor_cycle_baseline G b hunset]
  exact ⟨rfl, rfl, lhGet_lhSet_self lh url (some G)⟩

/-- C4 witness: first observation on an empty last_hashes dict. -/
theorem claim_C4_witness :
    (monitor_cycle "u" (some "g0") true []).emails = [] ∧
      (monitor_cycle "u" (some "g0") true []).last_hashes =
        lhSet [] "u" (some "g0") ∧
      lhGet (monitor_cycle "u" (some "g0") true []).last_hashes "u" =
        some "g0" :=
  claim_C4_first_observation_baseline "u" "g0" true [] (by decide)

/-- C5: a failed fetch leaves the stored fingerprints unchanged and
sends nothing, and the loop's remaining cycles behave exactly as if the
failed cycle had not happened. -/
theorem claim_C5_fetch_failure_skips (url : String) (b : Bool)
    (lh : LastHashes) (rest : List (Option String × Bool)) :
    (monitor_cycle url none b lh).last_hashes = lh ∧
      (monitor_cycle url none b lh).emails = [] ∧
      (monitor_run url ((none, b) :: rest) lh).last_hashes =
        (monitor_run url rest lh).last_hashes ∧
      (monitor_run url ((none, b) :: rest) lh).emails =
        (monitor_run url rest lh).emails := by
  refine ⟨rfl, rfl, ?_, ?_⟩ <;> simp [monitor_run, monitor_cycle]

/-- C8: the fingerprint is the hex-rendered digest of the UTF-8 encoded
extracted text, where the code's extraction agrees with the spec's
wording (matching elements' texts joined by single spaces, textless
elements skipped; all visible text without a selector), and the
extracted text is empty when no element matches. -/
theorem claim_C8_fingerprint_formula :
    (∀ (sha256hex : List Nat → String) (doc : Doc) (xpath : Option String),
      get_page_hash sha256hex doc xpath = fingerprint_spec sha256hex doc xpath) ∧
    ∀ (doc : Doc) (sel : String), doc.xpathElems sel = [] →
      content_text doc (some sel) = "" := by
  constructor
  · intro f doc xpath
    cases xpath with
    | none => rfl
    | some sel =>
      rw [get_page_hash, fingerprint_spec]
      simp only [content_text, extracted_text_spec, filterMap_truthy]
  · intro doc sel h
    simp only [content_text, h]
    rfl

/-- C8 witness: a concrete document with no matching elements. -/
theorem claim_C8_witness :
    get_page_hash (fun l => toString l.length) ⟨"hello", fun _ => []⟩ none =
        fingerprint_spec (fun l => toString l.length)
          ⟨"hello", fun _ => []⟩ none ∧
      content_text ⟨"hello", fun _ => []⟩ (some "p") = "" :=
  ⟨claim_C8_fingerprint_formula.1 (fun l => toString l.length)
      ⟨"hello", fun _ => []⟩ none,
    claim_C8_fingerprint_formula.2 ⟨"hello", fun _ => []⟩ "p" rfl⟩

theorem lookup_of_mem_nodup_keys {β : Type} {l : List (String × β)}
    {p : String × β} (hk : (l.map Prod.fst).Nodup) (hp : p ∈ l) :
    l.lookup p.1 = some p.2 := by
  induction l with
  | nil => simp at hp
  | cons q rest ih =>
    rw [List.map_cons, List.nodup_cons] at hk
    rcases List.mem_cons.mp hp with h | h
    · rw [h, show q = (q.1, q.2) from rfl, lookup_cons_eq, if_pos rfl]
    · have hne : p.1 ≠ q.1 := fun he =>
        hk.1 (he ▸ List.mem_map_of_mem Prod.fst h)
      rw [show q = (q.1, q.2) from rfl, lookup_cons_eq, if_neg hne]
      exact ih hk.2 h

theorem insertTask_append_of_not_mem {l : List (String × Nat)} {u : String}
    (h : u ∉ l.map Prod.fst) (v : Nat) : insertTask l u v = l ++ [(u, v)] := by
  induction l with
  | nil => rfl
  | cons p rest ih =>
    rw [List.map_cons] at h
    simp only [List.mem_cons, not_or] at h
    rw [insertTask, if_neg (by simpa using Ne.symm h.1), ih h.2]
    rfl

theorem gs_removal_step {s : SysState} {k : String} {tid : Nat}
    (hg : GoodState s) (htl : s.tasks.lookup k = some tid) :
    GoodState
      { s with
        tasks := s.tasks.filter (fun p => p.1 != k),
        last_hashes := s.last_hashes.filter (fun p => p.1 != k),
        live := s.live.filter (fun p => p.2 != tid) } := by
  obtain ⟨hlt, hkn, hin, hb⟩ := hg
  have hmem : (k, tid) ∈ s.tasks := lookup_mem htl
  have hfe : s.tasks.filter (fun p => p.2 != tid) =
      s.tasks.filter (fun p => p.1 != k) := by
    apply List.filter_congr
    intro p hp
    by_cases hpk : p.1 = k
    · have hl2 : s.tasks.lookup p.1 = some p.2 :=
        lookup_of_mem_nodup_keys hkn hp
      rw [hpk, htl] at hl2
      injection hl2 with hl2
      simp [hpk, ← hl2]
    · have hpt : p.2 ≠ tid := fun he =>
        hpk (congrArg Prod.fst
          (List.inj_on_of_nodup_map hin hp hmem (by simpa using he)))
      rw [show (p.2 != tid) = true from by simpa using hpt,
        show (p.1 != k) = true from by simpa using hpk]
  refine ⟨?_, ?_, ?_, ?_⟩
  · show s.live.filter (fun p => p.2 != tid) =
      s.tasks.filter (fun p => p.1 != k)
    rw [hlt, hfe]
  · exact hkn.sublist ((List.filter_sublist _).map Prod.fst)
  · exact hin.sublist ((List.filter_sublist _).map Prod.snd)
  · intro p hp
    exact hb p (List.mem_of_mem_filter hp)

theorem gs_append_step {s : SysState} {u : String}
    (hg : GoodState s) (hnm : u ∉ s.tasks.map Prod.fst) :
    GoodState
      { s with
        tasks := s.tasks ++ [(u, s.nextId)],
        live := s.live ++ [(u, s.nextId)],
        nextId := s.nextId + 1 } := by
  obtain ⟨hlt, hkn, hin, hb⟩ := hg
  have hni : s.nextId ∉ s.tasks.map Prod.snd := by
    intro hm
    rcases List.mem_map.mp hm with ⟨p, hpm, hpe⟩
    exact absurd (hpe ▸ hb p hpm) (lt_irrefl _)
  refine ⟨?_, ?_, ?_, ?_⟩
  · show s.live ++ _ = s.tasks ++ _
    rw [hlt]
  · rw [List.map_append]
    simp [List.nodup_append, hkn, hnm]
  · rw [List.map_append]
    simp [List.nodup_append, hin, hni]
  · intro p hp
    rcases List.mem_append.mp hp with h | h
    · exact Nat.lt_succ_of_lt (hb p h)
    · simp at h
      rw [h]
      exact Nat.lt_succ_self _

theorem gs_addLoop : ∀ (ts : List Target) (s : SysState),
    GoodState s → GoodState (addLoop ts s) := by
  intro ts
  induction ts with
  | nil =>
    intro s hg
    rw [addLoop]
    exact hg
  | cons t rest ih =>
    intro s hg
    rw [addLoop]
    by_cases hp : (s.tasks.lookup t.url).isSome = true
    · rw [if_pos hp]
      exact ih s hg
    · rw [if_neg hp]
      exact ih _ (gs_append_step hg (fun hm =>
        hp (lookup_isSome_of_mem_keys hm)))

theorem gs_startupLoop : ∀ (ts : List Target) (s : SysState),
    (ts.map Target.url).Nodup →
    (∀ t ∈ ts, t.url ∉ s.tasks.map Prod.fst) →
    GoodState s → GoodState (startupLoop ts s) := by
  intro ts
  induction ts with
  | nil =>
    intro s _ _ hg
    rw [startupLoop]
    exact hg
  | cons t rest ih =>
    intro s hu hd hg
    rw [startupLoop]
    rw [List.map_cons, List.nodup_cons] at hu
    have hnm : t.url ∉ s.tasks.map Prod.fst := hd t (List.mem_cons_self t rest)
    rw [insertTask_append_of_not_mem hnm]
    apply ih _ hu.2
    · intro t2 ht2
      rw [show ({ s with
            tasks := s.tasks ++ [(t.url, s.nextId)],
            live := s.live ++ [(t.url, s.nextId)],
            nextId := s.nextId + 1 } : SysState).tasks =
          s.tasks ++ [(t.url, s.nextId)] from rfl]
      rw [List.map_append, List.mem_append]
      rintro (h | h)
      · exact hd t2 (List.mem_cons_of_mem t ht2) h
      · simp at h
        exact hu.1 (h ▸ List.mem_map_of_mem Target.url ht2)
    · exact gs_append_step hg hnm

theorem gs_initState {ts : List Target} (hu : (ts.map Target.url).Nodup) :
    GoodState (initState ts) := by
  apply gs_startupLoop ts _ hu
  · intro t _ h
    simp at h
  · refine ⟨rfl, List.nodup_nil, List.nodup_nil, ?_⟩
    intro p hp
    simp at hp

theorem gs_removalLoop {newUrls : List String} :
    ∀ (keys : List String) (s s2 : SysState), GoodState s →
      removalLoop keys newUrls s = Except.ok s2 → GoodState s2 := by
  intro keys
  induction keys with
  | nil =>
    intro s s2 hg hr
    rw [removalLoop] at hr
    cases hr
    exact hg
  | cons k rest ih =>
    intro s s2 hg hr
    rw [removalLoop] at hr
    by_cases hc : newUrls.contains k = true
    · rw [if_pos hc] at hr
      exact ih s s2 hg hr
    · rw [if_neg hc] at hr
      cases htl : s.tasks.lookup k with
      | none =>
        rw [htl] at hr
        cases hr
      | some tid =>
        rw [htl] at hr
        cases hhl : s.last_hashes.lookup k with
        | none =>
          rw [hhl] at hr
          cases hr
        | some v =>
          rw [hhl] at hr
          exact ih _ s2 (gs_removal_step hg htl) hr

theorem gs_reconcile {s s2 : SysState} {ts : List Target}
    (hg : GoodState s) (hr : reconcile s ts = Except.ok s2) :
    GoodState s2 := by
  rw [reconcile] at hr
  cases hrl : removalLoop (s.tasks.map Prod.fst) (ts.map Target.url) s with
  | error e =>
    rw [hrl] at hr
    cases hr
  | ok s3 =>
    rw [hrl] at hr
    cases hr
    exact gs_addLoop ts s3 (gs_removalLoop _ s s3 hg hrl)

theorem gs_reachable {s : SysState} (hs : Reachable s) : GoodState s := by
  induction hs with
  | init ts hu _ => exact gs_initState hu
  | reconcileStep r _ hr ih => exact gs_reconcile ih hr
  | monitorStep url ch b _ ih => exact ih

theorem filter_keyeq_nil {l : List (String × Nat)} {u : String}
    (h : u ∉ l.map Prod.fst) : l.filter (fun p => p.1 == u) = [] := by
  induction l with
  | nil => rfl
  | cons p rest ih =>
    rw [List.map_cons] at h
    simp only [List.mem_cons, not_or] at h
    rw [List.filter_cons, if_neg (by simpa using Ne.symm h.1)]
    exact ih h.2

theorem filter_keyeq_length_le_one {l : List (String × Nat)}
    (hk : (l.map Prod.fst).Nodup) (u : String) :
    (l.filter (fun p => p.1 == u)).length ≤ 1 := by
  induction l with
  | nil => simp
  | cons p rest ih =>
    rw [List.map_cons, List.nodup_cons] at hk
    rw [List.filter_cons]
    by_cases hp : p.1 = u
    · rw [if_pos (by simpa using hp)]
      rw [filter_keyeq_nil (hp ▸ hk.1)]
      simp
    · rw [if_neg (by simpa using hp)]
      exact ih hk.2

theorem removalLoop_keeps {newUrls : List String} {k0 : String} :
    ∀ (keys : List String) (s s2 : SysState),
      removalLoop keys newUrls s = Except.ok s2 →
      newUrls.contains k0 = true →
      s2.tasks.lookup k0 = s.tasks.lookup k0 ∧
        s2.last_hashes.lookup k0 = s.last_hashes.lookup k0 := by
  intro keys
  induction keys with
  | nil =>
    intro s s2 hr _
    rw [removalLoop] at hr
    cases hr
    exact ⟨rfl, rfl⟩
  | cons k rest ih =>
    intro s s2 hr hk0
    rw [removalLoop] at hr
    by_cases hc : newUrls.contains k = true
    · rw [if_pos hc] at hr
      exact ih s s2 hr hk0
    · rw [if_neg hc] at hr
      cases htl : s.tasks.lookup k with
      | none =>
        rw [htl] at hr
        cases hr
      | some tid =>
        rw [htl] at hr
        cases hhl : s.last_hashes.lookup k with
        | none =>
          rw [hhl] at hr
          cases hr
        | some v =>
          rw [hhl] at hr
          have hkne : k0 ≠ k := fun he => hc (he ▸ hk0)
          obtain ⟨h1, h2⟩ := ih _ s2 hr hk0
          constructor
          · rw [h1]
            exact lookup_filter_keyne hkne s.tasks
          · rw [h2]
            exact lookup_filter_keyne hkne s.last_hashes

theorem addLoop_keeps {k0 : String} {v0 : Nat} :
    ∀ (ts : List Target) (s : SysState),
      s.tasks.lookup k0 = some v0 →
      (addLoop ts s).tasks.lookup k0 = some v0 ∧
        (addLoop ts s).last_hashes = s.last_hashes := by
  intro ts
  induction ts with
  | nil =>
    intro s h
    rw [addLoop]
    exact ⟨h, rfl⟩
  | cons t rest ih =>
    intro s h
    rw [addLoop]
    by_cases hp : (s.tasks.lookup t.url).isSome = true
    · rw [if_pos hp]
      exact ih s h
    · rw [if_neg hp]
      have h2 : (s.tasks ++ [(t.url, s.nextId)]).lookup k0 = some v0 :=
        lookup_append_some h
      obtain ⟨ha, hb⟩ := ih
        { s with
          tasks := s.tasks ++ [(t.url, s.nextId)],
          live := s.live ++ [(t.url, s.nextId)],
          nextId := s.nextId + 1 } h2
      exact ⟨ha, hb⟩

theorem removalLoop_clear :
    ∀ (keys : List String) (s : SysState),
      keys = s.tasks.map Prod.fst → keys.Nodup →
      (∀ k ∈ keys, (s.last_hashes.lookup k).isSome = true) →
      ∃ s2, removalLoop keys [] s = Except.ok s2 ∧ s2.tasks = [] := by
  intro keys
  induction keys with
  | nil =>
    intro s hk _ _
    exact ⟨s, by rw [removalLoop], List.map_eq_nil_iff.mp hk.symm⟩
  | cons k rest ih =>
    intro s hk hn hlh
    rw [List.nodup_cons] at hn
    have hmem : k ∈ s.tasks.map Prod.fst := by
      rw [← hk]
      exact List.mem_cons_self _ _
    obtain ⟨tid, htl⟩ :=
      Option.isSome_iff_exists.mp (lookup_isSome_of_mem_keys hmem)
    obtain ⟨v, hhl⟩ :=
      Option.isSome_iff_exists.mp (hlh k (List.mem_cons_self _ _))
    rw [removalLoop,
      if_neg (show ¬(([] : List String).contains k = true) from by simp),
      htl, hhl]
    have hrest : (s.tasks.filter (fun p => p.1 != k)).map Prod.fst = rest := by
      rw [map_fst_filter_keyne, ← hk, List.filter_cons,
        if_neg (show ¬((k != k) = true) from by simp)]
      refine List.filter_eq_self.mpr ?_
      intro x hx
      have hxk : x ≠ k := fun he => hn.1 (he ▸ hx)
      simpa using hxk
    apply ih _ hrest.symm hn.2
    intro k2 hk2
    have hkne : k2 ≠ k := fun he => hn.1 (he ▸ hk2)
    show ((s.last_hashes.filter (fun p => p.1 != k)).lookup k2).isSome = true
    rw [lookup_filter_keyne hkne]
    exact hlh k2 (List.mem_cons_of_mem _ hk2)

theorem removalLoop_ok {newUrls : List String} :
    ∀ (keys : List String) (s : SysState), keys.Nodup →
      (∀ k ∈ keys, newUrls.contains k = false →
        (s.tasks.lookup k).isSome = true ∧
          (s.last_hashes.lookup k).isSome = true) →
      ∃ s2, removalLoop keys newUrls s = Except.ok s2 := by
  intro keys
  induction keys with
  | nil =>
    intro s _ _
    exact ⟨s, by rw [removalLoop]⟩
  | cons k rest ih =>
    intro s hn hcond
    rw [List.nodup_cons] at hn
    rw [removalLoop]
    by_cases hc : newUrls.contains k = true
    · rw [if_pos hc]
      apply ih s hn.2
      intro k2 hk2 hcf
      exact hcond k2 (List.mem_cons_of_mem _ hk2) hcf
    · rw [if_neg hc]
      have hcf : newUrls.contains k = false := by
        cases h2 : newUrls.contains k
        · rfl
        · exact absurd h2 hc
      obtain ⟨h1, h2⟩ := hcond k (List.mem_cons_self _ _) hcf
      obtain ⟨tid, htl⟩ := Option.isSome_iff_exists.mp h1
      obtain ⟨v, hhl⟩ := Option.isSome_iff_exists.mp h2
      rw [htl, hhl]
      apply ih _ hn.2
      intro k2 hk2 hcf2
      have hkne : k2 ≠ k := fun he => hn.1 (he ▸ hk2)
      constructor
      · show ((s.tasks.filter (fun p => p.1 != k)).lookup k2).isSome = true
        rw [lookup_filter_keyne hkne]
        exact (hcond k2 (List.mem_cons_of_mem _ hk2) hcf2).1
      · show ((s.last_hashes.filter (fun p => p.1 != k)).lookup k2).isSome = true
        rw [lookup_filter_keyne hkne]
        exact (hcond k2 (List.mem_cons_of_mem _ hk2) hcf2).2

/-- C6: a URL present both in the running set and in the newly read
target list is left undisturbed by reconciliation: its tasks entry is
unchanged, its task stays live, and its stored fingerprint is
preserved (no re-baseline). -/
theorem claim_C6_survivors_undisturbed (s s2 : SysState) (ts : List Target)
    (k : String) (tid : Nat) (hg : GoodState s)
    (htl : s.tasks.lookup k = some tid)
    (hin : (ts.map Target.url).contains k = true)
    (hrec : reconcile s ts = Except.ok s2) :
    s2.tasks.lookup k = some tid ∧
      lhGet s2.last_hashes k = lhGet s.last_hashes k ∧
      (k, tid) ∈ s2.live := by
  rw [reconcile] at hrec
  cases hrl : removalLoop (s.tasks.map Prod.fst) (ts.map Target.url) s with
  | error e =>
    rw [hrl] at hrec
    cases hrec
  | ok s3 =>
    rw [hrl] at hrec
    cases hrec
    obtain ⟨h1, h2⟩ := removalLoop_keeps _ s s3 hrl hin
    have htl3 : s3.tasks.lookup k = some tid := by
      rw [h1]
      exact htl
    obtain ⟨ha, hb⟩ := addLoop_keeps ts s3 htl3
    refine ⟨ha, ?_, ?_⟩
    · rw [lhGet, lhGet, hb, h2]
    · have hg2 : GoodState (addLoop ts s3) :=
        gs_addLoop ts s3 (gs_removalLoop _ s s3 hg hrl)
      rw [hg2.1]
      exact lookup_mem ha

/-- C6 witness: one target kept across a reconciliation. -/
theorem claim_C6_witness :
    (initState [⟨"a", none⟩]).tasks.lookup "a" = some 0 ∧
      lhGet (initState [⟨"a", none⟩]).last_hashes "a" =
        lhGet (initState [⟨"a", none⟩]).last_hashes "a" ∧
      ("a", 0) ∈ (initState [⟨"a", none⟩]).live :=
  claim_C6_survivors_undisturbed (initState [⟨"a", none⟩])
    (initState [⟨"a", none⟩]) [⟨"a", none⟩] "a" 0
    ⟨by decide, by decide, by decide, by decide⟩
    (by decide) (by decide) (by decide)

/-- C9: in every reachable state there is at most one live monitor
task per target URL. -/
theorem claim_C9_one_task_per_url (s : SysState) (hs : Reachable s)
    (url : String) :
    (s.live.filter (fun p => p.1 == url)).length ≤ 1 := by
  have hg := gs_reachable hs
  rw [hg.1]
  exact filter_keyeq_length_le_one hg.2.1 url

/-- C9 witness: the startup state on one target. -/
theorem claim_C9_witness :
    ((initState [⟨"u", none⟩]).live.filter
      (fun p => p.1 == "u")).length ≤ 1 :=
  claim_C9_one_task_per_url (initState [⟨"u", none⟩])
    (Reachable.init [⟨"u", none⟩] (by decide) (by decide)) "u"

/-- C2 as stated fails on the code: a failed re-read does not retain
the previous desired set; at a concrete startup state it cancels the
running task (the tasks dict does not survive the read failure). -/
theorem claim_C2_counterexample :
    ¬ ∀ (s : SysState) (e : String),
      ∃ s2, reconcile_cycle s (Except.error e) = Except.ok s2 ∧
        s2.tasks = s.tasks := by
  intro h
  obtain ⟨s2, h1, h2⟩ := h (initState [⟨"a", none⟩]) "io"
  rw [show reconcile_cycle (initState [⟨"a", none⟩]) (Except.error "io") =
      Except.ok (⟨[], [], [], 1⟩ : SysState) from by decide] at h1
  cases h1
  exact absurd h2 (by decide)

/-- C2 amended: a failed re-read is logged and treated as an empty
desired set: provided every running task still has a fingerprint entry,
the reconciliation completes (the reconciler does not terminate on the
read failure) with every running task cancelled and all monitoring
state discarded. -/
theorem claim_C2_read_failure_clears (s : SysState) (e : String)
    (hg : GoodState s)
    (hlh : ∀ k, (s.tasks.lookup k).isSome = true →
      (s.last_hashes.lookup k).isSome = true) :
    ∃ s2, reconcile_cycle s (Except.error e) = Except.ok s2 ∧
      s2.tasks = [] ∧ s2.live = [] := by
  obtain ⟨s3, hok, hnil⟩ := removalLoop_clear (s.tasks.map Prod.fst) s rfl
    hg.2.1 (fun k hk => hlh k (lookup_isSome_of_mem_keys hk))
  refine ⟨s3, ?_, hnil, ?_⟩
  · rw [reconcile_cycle, load_target_urls, reconcile]
    rw [show (([] : List Target).map Target.url) = [] from rfl, hok]
    show Except.ok (addLoop [] s3) = Except.ok s3
    rw [addLoop]
  · have hg3 : GoodState s3 := gs_removalLoop _ s s3 hg hok
    rw [hg3.1, hnil]

/-- C2 witness for the amended statement: startup state on one target,
then a read failure. -/
theorem claim_C2_witness :
    ∃ s2, reconcile_cycle (initState [⟨"a", none⟩]) (Except.error "io") =
        Except.ok s2 ∧ s2.tasks = [] ∧ s2.live = [] :=
  claim_C2_read_failure_clears (initState [⟨"a", none⟩]) "io"
    ⟨by decide, by decide, by decide, by decide⟩
    (by
      intro k hk
      by_cases hka : k = "a"
      · subst hka
        decide
      · rw [show (initState [⟨"a", none⟩]).tasks = [("a", 0)] from by decide]
          at hk
        rw [lookup_cons_eq, if_neg hka] at hk
        simp [List.lookup] at hk)

/-- C10 as stated fails on the code: with an empty target list at
startup the program returns instead of entering the monitoring loop. -/
theorem claim_C10_counterexample :
    ¬ ∀ (r : Except String (List Target)),
      (monitor_websites_start r).isSome = true := by
  intro h
  exact absurd (h (Except.ok [])) (by decide)

/-- C10 amended: the program enters the perpetual loop exactly when the
startup target list is non-empty (otherwise it logs and returns), and a
reconciliation pass returns normally (so the loop does not exit) as
long as every URL it would remove still has a fingerprint entry. -/
theorem claim_C10_runs_until_killed :
    (∀ r, (monitor_websites_start r).isSome = true ↔
      load_target_urls r ≠ []) ∧
    ∀ (s : SysState) (ts : List Target), GoodState s →
      (∀ k, (s.tasks.lookup k).isSome = true →
        (ts.map Target.url).contains k = false →
        (s.last_hashes.lookup k).isSome = true) →
      ∃ s2, reconcile s ts = Except.ok s2 := by
  constructor
  · intro r
    by_cases h : load_target_urls r = []
    · simp [monitor_websites_start, h]
    · simp [monitor_websites_start, h]
  · intro s ts hg hcond
    obtain ⟨s3, hok⟩ := removalLoop_ok (s.tasks.map Prod.fst) s hg.2.1
      (fun k hk hcf => ⟨lookup_isSome_of_mem_keys hk,
        hcond k (lookup_isSome_of_mem_keys hk) hcf⟩)
    refine ⟨addLoop ts s3, ?_⟩
    rw [reconcile, hok]

/-- C10 witness: non-empty startup list enters the loop; a concrete
reconciliation returns normally. -/
theorem claim_C10_witness :
    ((monitor_websites_start (Except.ok [⟨"u", none⟩])).isSome = true ↔
      load_target_urls (Except.ok [⟨"u", none⟩]) ≠ []) ∧
    ∃ s2, reconcile (initState [⟨"u", none⟩]) [] = Except.ok s2 :=
  ⟨claim_C10_runs_until_killed.1 (Except.ok [⟨"u", none⟩]),
    claim_C10_runs_until_killed.2 (initState [⟨"u", none⟩]) []
      ⟨by decide, by decide, by decide, by decide⟩
      (by
        intro k hk _
        by_cases hka : k = "u"
        · subst hka
          decide
        · rw [show (initState [⟨"u", none⟩]).tasks = [("u", 0)] from by decide]
            at hk
          rw [lookup_cons_eq, if_neg hka] at hk
          simp [List.lookup] at hk)⟩

/-- C7: the removal path crashes when the removed URL has no
fingerprint entry. Starting from one target a, adding target b and then
removing b again before any successful fetch for b makes the deletion
of b's fingerprint raise KeyError (modelled as Except.error), which
terminates the whole program instead of cleanly discarding b's state. -/
theorem claim_C7_removal_keyerror :
    ∃ s1, reconcile_cycle (initState [⟨"a", none⟩])
        (Except.ok [⟨"a", none⟩, ⟨"b", none⟩]) = Except.ok s1 ∧
      (s1.tasks.lookup "b").isSome = true ∧
      lhGet s1.last_hashes "b" = none ∧
      reconcile_cycle s1 (Except.ok [⟨"a", none⟩]) =
        Except.error ("KeyError: last_hashes b") := by
  refine ⟨⟨[("a", 0), ("b", 1)], [("a", none)], [("a", 0), ("b", 1)], 2⟩,
    ?_, ?_, ?_, ?_⟩ <;> decide
